import Mathlib

/-!
Shallow embedding of the UNO-SOFT/zlog v2 handler-composition and console
rendering pipeline (Level Gate, Fan-Out Dispatcher, Batching Buffer, Console
Renderer, Attribute Value Normalizer), with theorems settling the
specification claims against the source.
-/

namespace Zlog

/-! Severity levels. slog.Level is a signed integer: Debug = -4, Info = 0,
Warn = 4, Error = 8 (src/v2/handlers.go, package slog). -/

abbrev Level := Int

def LevelDebug : Level := -4
def LevelInfo : Level := 0
def LevelWarn : Level := 4
def LevelError : Level := 8

/-- Model of the slog.Leveler held by a LevelHandler: either a settable
LevelVar (settable = true) or a plain constant slog.Level (settable = false).
The field val is the current Level() value. -/
structure Leveler where
  settable : Bool
  val : Level
deriving Repr, DecidableEq

/-- Leveler.Level() -/
def Leveler.level (l : Leveler) : Level := l.val

/-- Model of an slog.Handler graph as relevant to the claims: a base sink
(identified by id, carrying the Level option of its HandlerOptions and the
error its Handle returns), or a LevelHandler (src/unnamed/part_000) whose
inner handler may be nil. A MultiHandler is modelled by its member list,
see multiHandle below. -/
inductive Handler where
  | base (id : Nat) (minLevel : Level) (err : Option Nat)
  | level (lvl : Leveler) (inner : Option Handler)
deriving Repr

/-- Enabled. A base sink follows the Level of its HandlerOptions;
LevelHandler.Enabled (src/unnamed/part_000) returns level >= h.level.Level()
and ignores the inner handler. -/
def Handler.enabled : Handler → Level → Bool
  | .base _ minL _, l => decide (minL ≤ l)
  | .level lv _, l => decide (lv.level ≤ l)

/-- Handle. The result is the ordered list of ids of base sinks that received
the record, with the returned error. A base sink handles unconditionally when
called. LevelHandler.Handle (src/unnamed/part_000) returns nil when the inner
handler is nil and otherwise forwards unconditionally (no enabled check). -/
def Handler.handle : Handler → Level → List Nat × Option Nat
  | .base i _ err, _ => ([i], err)
  | .level _ none, _ => ([], none)
  | .level _ (some h), l => h.handle l

/-- Keeps the first non-nil error, as MultiHandler.Handle collects firstErr. -/
def firstErr : Option Nat → Option Nat → Option Nat
  | some e, _ => some e
  | none, e2 => e2

/-- MultiHandler.Handle (src/v2/handlers_multi.go lines 35-46): iterates the
member list in order, skips any member whose Enabled reports false for the
record level, calls Handle on the others, and keeps the first non-nil error
while still attempting every remaining member. -/
def multiHandle : List Handler → Level → List Nat × Option Nat
  | [], _ => ([], none)
  | h :: t, l =>
    if h.enabled l then
      let d := h.handle l
      let rest := multiHandle t l
      (d.1 ++ rest.1, firstErr d.2 rest.2)
    else multiHandle t l

/-- MultiHandler.Enabled: true iff any member reports enabled. -/
def multiEnabled (hs : List Handler) (l : Level) : Bool :=
  hs.any (fun h => h.enabled l)

/-- Version following the claim C1 words, for comparison with multiHandle:
forwards the record to every member unconditionally, with no enabled
re-check before calling Handle. -/
def multiHandleUncond : List Handler → Level → List Nat × Option Nat
  | [], _ => ([], none)
  | h :: t, l =>
    let d := h.handle l
    let rest := multiHandleUncond t l
    (d.1 ++ rest.1, firstErr d.2 rest.2)

/-- Combines the per-member Handle results in order: concatenated deliveries,
first non-nil error. -/
def combineResults : List (List Nat × Option Nat) → List Nat × Option Nat
  | [] => ([], none)
  | d :: t =>
    let rest := combineResults t
    (d.1 ++ rest.1, firstErr d.2 rest.2)

/-- LevelHandler.SetLevel (src/unnamed/part_000): when the held leveler is a
settable LevelVar, Set(level.Level()) is called on it; otherwise the level
field is replaced by the plain value level.Level() (a plain slog.Level is not
settable). -/
def setLevel (g : Leveler) (new : Leveler) : Leveler :=
  if g.settable then { g with val := new.level }
  else { settable := false, val := new.level }

/-- Applies a sequence of SetLevel calls in order. -/
def applySetLevels (g : Leveler) (ls : List Leveler) : Leveler :=
  ls.foldl setLevel g

/-- NewLevelHandler (src/unnamed/part_000): when the wrapped handler is itself
a LevelHandler, its destination replaces it (one unwrapping step); then a new
gate with the given leveler is built around the result. -/
def NewLevelHandler (lvl : Leveler) (h : Handler) : Handler :=
  match h with
  | .level _ inner => .level lvl inner
  | _ => .level lvl (some h)

/-- Whether a handler is a LevelHandler. -/
def Handler.isLevelGate : Handler → Bool
  | .level _ _ => true
  | _ => false

/-- Whether a handler is a LevelHandler whose inner sink is itself a
LevelHandler. -/
def Handler.innerIsGate : Handler → Bool
  | .level _ (some h) => h.isLevelGate
  | _ => false

/-- A chain of two LevelHandlers, as Logger.V builds by struct literal
(src/v2/logger.go line 177: the literal wraps the current handler without
unwrapping it). -/
def chainedGate : Handler :=
  Handler.level ⟨false, LevelInfo⟩
    (some (Handler.level ⟨true, LevelInfo⟩ (some (Handler.base 0 LevelInfo none))))

/-- LevelHandler.Handle called through a possibly-nil receiver
(src/unnamed/part_000: if h == nil or h.handler == nil, return nil). The
state is none for a nil gate, or the pair of leveler and optional inner
handler. -/
def levelHandleNil : Option (Leveler × Option Handler) → Level → List Nat × Option Nat
  | none, _ => ([], none)
  | some (_, none), _ => ([], none)
  | some (_, some h), l => h.handle l

/-! Attribute Value Normalizer: ensurePrintableValueIsEmpty
(src/v2/console.go lines 74-207). The function receives a pointer to an
slog.Value of kind KindAny; the Go dynamic value inside is modelled by the
branch of the type switch it takes. -/

/-- Model of the dynamic Go value held by a KindAny slog.Value, by the branch
of the ensurePrintableValueIsEmpty type switch that handles it:
- vnil: the nil interface value;
- vstr: a string;
- verr: an error value (none models a nil error inside a non-nil interface);
- vmarshaler: a json.Marshaler, with nilness and MarshalJSON output;
- vstringer: a fmt.Stringer, with its String() result;
- vbool, vint: bool and the signed/small unsigned integer cases (int, int8..
  int64, uint8..uint32 all become canonical numeric values and return false);
- vuint64: the uint64 case;
- vinvalid: reflect.Kind Invalid in the default branch;
- vchanfunc: reflect.Kind Chan or Func, with nilness and the fmt %v text used
  by the deferred fallback;
- vother: any other kind: encoded is the json.Marshal output when
  jsonMarshalableEnc.Encode succeeds (none on failure), isZero is
  reflect.Value.IsZero, textual is the fmt %v fallback text. -/
inductive GoVal where
  | vnil
  | vstr (s : String)
  | verr (msg : Option String)
  | vmarshaler (isNil : Bool) (out : String)
  | vstringer (s : String)
  | vbool (b : Bool)
  | vint (n : Int)
  | vuint64 (n : Nat)
  | vinvalid
  | vchanfunc (isNil : Bool) (textual : String)
  | vother (encoded : Option String) (isZero : Bool) (textual : String)
deriving Repr, DecidableEq

/-- An slog.Value as left behind by the normalizer: one of the canonical
kinds, or a still-KindAny value (any) for the branches that do not replace
the value. -/
inductive AttrV where
  | str (s : String)
  | int (n : Int)
  | uint (n : Nat)
  | bool (b : Bool)
  | any (g : GoVal)
deriving Repr, DecidableEq

/-- The largest signed 64-bit integer, the upper end of the range an int64
slog.Value can carry. -/
def maxInt64 : Nat := 2 ^ 63 - 1

/-- Result of ensurePrintableValueIsEmpty: the returned isEmpty flag and the
value left in *value afterwards. -/
structure NormOut where
  isEmpty : Bool
  value : AttrV
deriving Repr, DecidableEq

/-- ensurePrintableValueIsEmpty (src/v2/console.go lines 74-207), branch by
branch. The deferred closure replaces the value with its fmt %v text exactly
when the branch neither returned empty nor set ok; in the vother branch with
successful serialization the buffer compared against the empty literals is
the output of jsonMarshalableEnc.Encode, which is the json.Marshal text
followed by a newline (encoding/json: Encode writes the encoding followed by
a newline character). -/
def ensurePrintableValueIsEmpty : GoVal → NormOut
  | .vnil => ⟨true, .any .vnil⟩
  | .vstr s => ⟨decide (s = ""), .str s⟩
  | .verr none => ⟨true, .any (.verr none)⟩
  | .verr (some m) => ⟨false, .str m⟩
  | .vmarshaler isNil out => ⟨isNil, .any (.vmarshaler isNil out)⟩
  | .vstringer s => ⟨decide (s = ""), .str s⟩
  | .vbool b => ⟨false, .bool b⟩
  | .vint n => ⟨false, .int n⟩
  | .vuint64 n =>
    if 2 ^ 63 < n then ⟨false, .str (toString n)⟩ else ⟨false, .uint n⟩
  | .vinvalid => ⟨true, .any .vinvalid⟩
  | .vchanfunc true t => ⟨true, .any (.vchanfunc true t)⟩
  | .vchanfunc false t => ⟨false, .str t⟩
  | .vother (some j) isZero t =>
    let x := j ++ "\n"
    if x = "\"\"" ∨ x = "[]" ∨ x = "\x7b\x7d" ∨ x = "null" then
      ⟨true, .any (.vother (some j) isZero t)⟩
    else ⟨false, .str x⟩
  | .vother none true t => ⟨true, .any (.vother none true t)⟩
  | .vother none false t => ⟨false, .str t⟩

/-! Console Renderer (src/v2/console.go). The renderer assembles one line:
time field (zero-padded under the default format), three-letter level label
(optionally colorized), optional call-site, quoted message, and the attr
bytes produced by the inner JSON handler on the stripped record, after
removal of leading empty placeholder pairs. -/

/-- Whitespace test used to model bytes.TrimSpace on the ASCII bytes the
encoder produces. -/
def isSpaceChar (c : Char) : Bool :=
  c = ' ' || c = '\t' || c = '\n' || c = '\r'

/-- Model of bytes.TrimSpace: drops whitespace from both ends. -/
def trimSpace (l : List Char) : List Char :=
  ((l.dropWhile isSpaceChar).reverse.dropWhile isSpaceChar).reverse

/-- The empty placeholder pair as bytes, without the separating comma. -/
def emptyPair : List Char := ['"', '"', ':', '"', '"']

/-- The loop in ConsoleHandler.Handle (src/v2/console.go lines 384-387),
written with a structural fuel argument: while the buffer starts with an
empty placeholder pair, drop six bytes (the five placeholder bytes plus the
byte after them), recording whether anything was dropped. A matching step
needs at least five bytes and removes six, so with fuel equal to the initial
length (see stripLoop) the zero-fuel case is reached only on the empty list,
where the loop guard fails anyway: the function computes exactly the
unbounded loop. -/
def stripLoopAux : Nat → List Char → List Char × Bool
  | 0, b => (b, false)
  | fuel + 1, b =>
    if b.take 5 = emptyPair then
      let r := stripLoopAux fuel (b.drop 6)
      (r.1, true)
    else (b, false)

/-- The placeholder-stripping loop on a buffer. -/
def stripLoop (b : List Char) : List Char × Bool := stripLoopAux b.length b

/-- The attr-buffer rewriting in ConsoleHandler.Handle (src/v2/console.go
lines 379-396): when the buffer is non-empty and starts with the opening
brace, strip leading empty placeholder pairs; if anything was stripped, the
buffer is rebuilt as brace plus remainder, or emptied when only whitespace
remains. -/
def stripAttrBuf (s : String) : String :=
  if s.length ≠ 0 then
    match s.data with
    | [] => s
    | c :: b =>
      if c = '\x7b' then
        let r := stripLoop b
        if r.2 then
          if trimSpace r.1 ≠ [] then String.mk ('\x7b' :: r.1) else ""
        else s
      else s
  else s

/-- JSON string escaping for the ASCII characters appearing in the claims
(encoding/json string quoting, restricted to the printable-ASCII alphabet
plus common escapes actually exercised here). -/
def jsonQuoteChar (c : Char) : String :=
  if c = '"' then "\\\""
  else if c = '\\' then "\\\\"
  else if c = '\n' then "\\n"
  else if c = '\t' then "\\t"
  else if c = '\r' then "\\r"
  else String.singleton c

/-- A JSON-quoted string. -/
def jsonQuote (s : String) : String :=
  "\"" ++ String.join (s.data.map jsonQuoteChar) ++ "\""

/-- JSON encoding of a canonical slog.Value by the slog JSONHandler: strings
are quoted, numbers and booleans are printed bare; of the KindAny values only
a non-nil json.Marshaler reaches the encoder (every other KindAny value is
either elided or replaced by the normalizer first), and its MarshalJSON
output is emitted. -/
def jsonEncVal : AttrV → String
  | .str s => jsonQuote s
  | .int n => toString n
  | .uint n => toString n
  | .bool b => if b then "true" else "false"
  | .any g =>
    match g with
    | .vmarshaler _ out => out
    | _ => "null"

/-- The four reserved keys handled positionally by the renderer. -/
def reservedKeys : List String := ["time", "level", "source", "msg"]

/-- The ReplaceAttr function installed by newConsoleHandlerOptions
(src/v2/console.go lines 209-226): reserved keys become the zero Attr (which
the slog handler elides), any KindAny value goes through the normalizer and
becomes the zero Attr when deemed empty, otherwise the normalized value; all
other attributes pass through unchanged. The result none models the elided
zero Attr. -/
def replaceAttrConsole (k : String) (v : AttrV) : Option (String × AttrV) :=
  if k ∈ reservedKeys then none
  else
    match v with
    | .any g =>
      let r := ensurePrintableValueIsEmpty g
      if r.isEmpty then none else some (k, r.value)
    | _ => some (k, v)

/-- Bytes written into attrBuf by the inner JSON handler
(HandlerOptions.NewJSONHandler over the record with time, level, PC and
message zeroed): an object holding the surviving attributes, terminated by
the newline the slog JSONHandler writes after each record. -/
def attrEncBytes (attrs : List (String × AttrV)) : String :=
  "\x7b" ++
    String.intercalate ","
      ((attrs.filterMap (fun p => replaceAttrConsole p.1 p.2)).map
        (fun p => jsonQuote p.1 ++ ":" ++ jsonEncVal p.2)) ++
    "\x7d\n"

/-- Renderer configuration: UseColor, HandlerOptions.AddSource, and whether
TimeFormat is still DefaultTimeFormat (which enables zero padding). -/
structure CConfig where
  useColor : Bool
  addSource : Bool
  defaultTimeFmt : Bool
deriving Repr, DecidableEq

/-- A record as the renderer consumes it: the formatted time string (the
r.Time.AppendFormat result, host time formatting abstracted as input), the
level, the resolved call-site frame (none when r.PC is zero or the resolved
file is empty), the message, and the attributes. -/
structure CRecord where
  timeStr : String
  level : Level
  source : Option (String × Nat)
  msg : String
  attrs : List (String × AttrV)
deriving Repr, DecidableEq

/-- Zero padding of the time field (src/v2/console.go lines 337-341): under
the default format the field is padded with trailing zeros to the format
width, 12. -/
def padTime (defaultFmt : Bool) (s : String) : String :=
  if defaultFmt then s ++ String.mk (List.replicate (12 - s.length) '0') else s

/-- Level label selection (src/v2/console.go lines 344-353). -/
def lvlLabel (l : Level) : String :=
  if l < LevelInfo then "DBG"
  else if l < LevelWarn then "INF"
  else if l < LevelError then "WRN"
  else "ERR"

/-- The levelToColor map with the unknownLevelColor fallback
(src/v2/console.go lines 447-455): Magenta, Blue, Yellow, Red as ANSI codes. -/
def levelToColor (s : String) : Nat :=
  if s = "DBG" then 35
  else if s = "INF" then 34
  else if s = "WRN" then 33
  else if s = "ERR" then 31
  else 31

/-- Color.Add (src/v2/console.go lines 443-445). -/
def colorAdd (c : Nat) (s : String) : String :=
  "\x1b[" ++ toString c ++ "m" ++ s ++ "\x1b[0m"

/-- addColorToLevel (src/v2/console.go lines 457-463). -/
def addColorToLevel (s : String) : String := colorAdd (levelToColor s) s

/-- Index of the first occurrence of sub in hay (strings.Index; none models
the -1 result). Character indices coincide with Go byte indices on the ASCII
paths involved. -/
def findSub (sub : List Char) : List Char → Option Nat
  | [] => if ([] : List Char).take sub.length = sub then some 0 else none
  | c :: t =>
    if (c :: t).take sub.length = sub then some 0
    else (findSub sub t).map (fun i => i + 1)

/-- strings.Index on strings. -/
def strIndex (s sub : String) : Option Nat := findSub sub.data s.data

/-- filepath.Separator as a string, on the POSIX platforms the renderer's
path trimming targets. -/
def pathSep : String := "/"

def modPart : String := pathSep ++ "mod" ++ pathSep

def srcPart : String := pathSep ++ "src" ++ pathSep

/-- trimRootPath (src/v2/console.go lines 44-52): prefer the module-cache
segment when it is followed by a version marker, otherwise the source-tree
segment, otherwise the path unchanged. -/
def trimRootPath (p : String) : String :=
  match strIndex p modPart with
  | some i =>
    let rest := String.mk (p.data.drop (i + modPart.length))
    if rest.data.contains '@' then rest
    else
      match strIndex p srcPart with
      | some j => String.mk (p.data.drop (j + srcPart.length))
      | none => p
  | none =>
    match strIndex p srcPart with
    | some j => String.mk (p.data.drop (j + srcPart.length))
    | none => p

/-- The call-site segment (src/v2/console.go lines 360-370): emitted only when
AddSource is set and the record carries a resolved frame. -/
def srcField (addSource : Bool) (src : Option (String × Nat)) : String :=
  match addSource, src with
  | true, some (f, line) => "[" ++ trimRootPath f ++ ":" ++ toString line ++ "] "
  | _, _ => ""

/-- Message quoting: strconv.AppendQuote, modelled for printable-ASCII
messages plus the common escapes exercised by the claims. -/
def goQuoteChar (c : Char) : String :=
  if c = '"' then "\\\""
  else if c = '\\' then "\\\\"
  else if c = '\n' then "\\n"
  else if c = '\t' then "\\t"
  else if c = '\r' then "\\r"
  else String.singleton c

/-- A Go-quoted string. -/
def goQuote (s : String) : String :=
  "\"" ++ String.join (s.data.map goQuoteChar) ++ "\""

/-- The positional part of the console line: padded time, space, level label
(colorized when UseColor), space, optional call-site, quoted message
(src/v2/console.go lines 334-372). -/
def consolePre (cfg : CConfig) (r : CRecord) : String :=
  padTime cfg.defaultTimeFmt r.timeStr ++ " " ++
    (if cfg.useColor then addColorToLevel (lvlLabel r.level) else lvlLabel r.level) ++
    " " ++ srcField cfg.addSource r.source ++ goQuote r.msg

/-- Content of attrBuf when the line is assembled: the inner JSON handler runs
only when the record has attributes (r.NumAttrs() != 0 guard), and its bytes
then pass through the placeholder stripping. -/
def consoleAttrBuf (r : CRecord) : String :=
  stripAttrBuf (if r.attrs.length ≠ 0 then attrEncBytes r.attrs else "")

/-- ConsoleHandler.Handle line assembly (src/v2/console.go lines 399-404):
when attrBuf is non-empty the separator and the attr bytes are appended and
no newline is written by the renderer; otherwise the renderer writes the
terminating newline itself. -/
def consoleHandle (cfg : CConfig) (r : CRecord) : String :=
  let ab := consoleAttrBuf r
  if ab.length ≠ 0 then consolePre cfg r ++ " attrs=" ++ ab
  else consolePre cfg r ++ "\n"

/-- Whether a string ends in a newline byte. -/
def endsWithNewline (s : String) : Bool := s.data.getLast? = some '\n'

/-- ConsoleHandler.Handle on a possibly-nil receiver (src/v2/console.go lines
328-331): a nil receiver returns nil immediately; otherwise wErr models the
error surfaced from the inner handler or the destination write. -/
def consoleHandleNil : Option CConfig → Option Nat → CRecord → Option Nat × String
  | none, _, _ => (none, "")
  | some cfg, wErr, r => (wErr, consoleHandle cfg r)

/-! Batching Buffer. No batching handler source is present under src/ (only
the spec describes it), so the component is modelled from the spec. -/

/-- State of a Batching Buffer: the backlog of records awaiting flush and the
records the inner sink has received, in order. Records are abstracted as
naturals. -/
structure BatchState where
  backlog : List Nat
  sent : List Nat
deriving Repr, DecidableEq

/-- Modelled from the spec: the Batching Buffer handle operation (the batching
handler's source is not under src/). Spec 4.4: appends to the backlog under a
lock; if the backlog length reaches the size threshold it flushes
synchronously, draining the backlog to the inner sink in FIFO order, before
returning; a threshold of zero or below disables size-triggered flushing. -/
def batchHandle (n : Int) (st : BatchState) (r : Nat) : BatchState :=
  let backlog := st.backlog ++ [r]
  if 0 < n ∧ n ≤ backlog.length then
    { backlog := [], sent := st.sent ++ backlog }
  else { st with backlog := backlog }

/-- A sequence of handle calls on a Batching Buffer. -/
def batchRun (n : Int) (st : BatchState) (rs : List Nat) : BatchState :=
  rs.foldl (batchHandle n) st

/-! Concrete inputs used by counterexamples and witnesses. -/

def cfg0 : CConfig := ⟨false, false, true⟩

def recAttrs : CRecord := ⟨"12:34:56.789", 0, none, "m", [("a", .int 0)]⟩

def recNoAttrs : CRecord := ⟨"12:34:56.789", 0, none, "m", []⟩

def recEmptyFirst : CRecord :=
  ⟨"12:34:56.789", 0, none, "m", [("", .str ""), ("a", .int 0)]⟩

def recEmptyLast : CRecord :=
  ⟨"12:34:56.789", 0, none, "m", [("a", .int 0), ("", .str "")]⟩

/-! Helper lemmas. -/

/-- The strip loop only removes bytes from the front: its result is a suffix
of its input. -/
theorem stripLoopAux_suffix (fuel : Nat) : ∀ b : List Char, (stripLoopAux fuel b).1 <:+ b := by
  induction fuel with
  | zero => intro b; exact List.suffix_refl b
  | succ f ih =>
    intro b
    unfold stripLoopAux
    split
    · exact (ih (b.drop 6)).trans (List.drop_suffix 6 b)
    · exact List.suffix_refl b

/-- Suffix property for the packaged loop. -/
theorem stripLoop_suffix (b : List Char) : (stripLoop b).1 <:+ b :=
  stripLoopAux_suffix b.length b

/-- A non-empty suffix has the same last element as the whole list. -/
theorem getLast?_of_suffix {r b : List Char} (h : r <:+ b) (hne : r ≠ []) :
    b.getLast? = r.getLast? := by
  obtain ⟨t, rfl⟩ := h
  exact List.getLast?_append_of_ne_nil t hne

/-- Trimming whitespace from the empty list yields the empty list. -/
theorem trimSpace_nil : trimSpace [] = [] := rfl

/-- A string of nonzero length is not the empty string, at the data level. -/
theorem length_ne_zero_of_ne_empty {s : String} (h : s ≠ "") : s.length ≠ 0 := by
  intro h0
  apply h
  cases s with
  | mk d =>
    have hd : d = [] := List.length_eq_zero.mp h0
    rw [hd]

/-- Appending a newline produces a string distinct from any string whose last
character is not a newline. -/
theorem append_newline_ne {s lit : String} (hlit : lit.data.getLast? ≠ some '\n') :
    s ++ "\n" ≠ lit := by
  intro he
  apply hlit
  rw [← he]
  show (s ++ "\n").data.getLast? = some '\n'
  rw [String.data_append]
  rw [List.getLast?_append_of_ne_nil _ (by decide : ("\n").data ≠ [])]
  rfl

/-- The encoder's bytes always end in the newline the JSON handler writes. -/
theorem endsWithNewline_attrEncBytes (as : List (String × AttrV)) :
    endsWithNewline (attrEncBytes as) = true := by
  unfold endsWithNewline attrEncBytes
  rw [String.data_append]
  rw [List.getLast?_append_of_ne_nil _ (by decide : ("\x7d\n").data ≠ [])]
  rfl

/-- Placeholder stripping keeps the trailing newline whenever anything at all
remains. -/
theorem stripAttrBuf_newline {s : String} (h : endsWithNewline s = true) :
    stripAttrBuf s = "" ∨ endsWithNewline (stripAttrBuf s) = true := by
  have hdne : s.data ≠ [] := by
    intro hd
    unfold endsWithNewline at h
    rw [hd] at h
    simp at h
  rcases hs : s.data with _ | ⟨c, b⟩
  · exact absurd hs hdne
  · have hlen : s.length ≠ 0 := by
      show s.data.length ≠ 0
      rw [hs]
      simp
    by_cases hc : c = '\x7b'
    · by_cases hch : (stripLoop b).2 = true
      · by_cases ht : trimSpace (stripLoop b).1 ≠ []
        · right
          have hres : stripAttrBuf s = String.mk ('\x7b' :: (stripLoop b).1) := by
            unfold stripAttrBuf
            rw [if_pos hlen]
            split
            · simp_all
            · rename_i c2 b2 heq
              rw [hs] at heq
              cases heq
              rw [if_pos hc, if_pos hch, if_pos ht]
          rw [hres]
          have hr1ne : (stripLoop b).1 ≠ [] := by
            intro hnil
            apply ht
            rw [hnil]
            rfl
          have hbne : b ≠ [] := by
            intro hb
            apply hr1ne
            rw [hb]
            rfl
          have hlast_s : (c :: b).getLast? = some '\n' := by
            unfold endsWithNewline at h
            rw [hs] at h
            exact of_decide_eq_true h
          have hlast_b : b.getLast? = some '\n' := by
            rw [show (c :: b) = [c] ++ b from rfl] at hlast_s
            rwa [List.getLast?_append_of_ne_nil [c] hbne] at hlast_s
          have hlast_r : (stripLoop b).1.getLast? = some '\n' := by
            rw [← getLast?_of_suffix (stripLoop_suffix b) hr1ne]
            exact hlast_b
          unfold endsWithNewline
          show decide ((String.mk ('\x7b' :: (stripLoop b).1)).data.getLast? = some '\n') = true
          rw [decide_eq_true_iff]
          show ('\x7b' :: (stripLoop b).1).getLast? = some '\n'
          rw [show ('\x7b' :: (stripLoop b).1) = ['\x7b'] ++ (stripLoop b).1 from rfl]
          rw [List.getLast?_append_of_ne_nil ['\x7b'] hr1ne]
          exact hlast_r
        · left
          unfold stripAttrBuf
          rw [if_pos hlen]
          split
          · simp_all
          · rename_i c2 b2 heq
            rw [hs] at heq
            cases heq
            rw [if_pos hc, if_pos hch, if_neg ht]
      · right
        have hres : stripAttrBuf s = s := by
          unfold stripAttrBuf
          rw [if_pos hlen]
          split
          · rfl
          · rename_i c2 b2 heq
            rw [hs] at heq
            cases heq
            rw [if_pos hc, if_neg hch]
        rw [hres]
        exact h
    · right
      have hres : stripAttrBuf s = s := by
        unfold stripAttrBuf
        rw [if_pos hlen]
        split
        · rfl
        · rename_i c2 b2 heq
          rw [hs] at heq
          cases heq
          rw [if_neg hc]
      rw [hres]
      exact h

/-- The attr buffer at line-assembly time is empty or newline-terminated. -/
theorem consoleAttrBuf_newline (r : CRecord) :
    consoleAttrBuf r = "" ∨ endsWithNewline (consoleAttrBuf r) = true := by
  unfold consoleAttrBuf
  by_cases ha : r.attrs.length ≠ 0
  · rw [if_pos ha]
    exact stripAttrBuf_newline (endsWithNewline_attrEncBytes r.attrs)
  · rw [if_neg ha]
    left
    rfl

/-- One handle call never triggering the size threshold. -/
theorem batchHandle_no_flush (n : Int) (st : BatchState) (r : Nat)
    (h : ¬(0 < n ∧ n ≤ ((st.backlog ++ [r]).length : Int))) :
    batchHandle n st r = ⟨st.backlog ++ [r], st.sent⟩ := by
  unfold batchHandle
  rw [if_neg h]

/-- Handling a run of records that never reaches the threshold only extends
the backlog. -/
theorem batchRun_no_flush (n : Int) :
    ∀ (rs : List Nat) (st : BatchState),
      (st.backlog.length : Int) + rs.length < n →
      batchRun n st rs = ⟨st.backlog ++ rs, st.sent⟩ := by
  intro rs
  induction rs with
  | nil =>
    intro st h
    simp [batchRun]
  | cons r rest ih =>
    intro st h
    have hcond : ¬(0 < n ∧ n ≤ ((st.backlog ++ [r]).length : Int)) := by
      rintro ⟨-, hle⟩
      simp only [List.length_append, List.length_cons, List.length_nil] at hle h
      push_cast at hle h
      omega
    show batchRun n st (r :: rest) = _
    rw [batchRun, List.foldl_cons, ← batchRun, batchHandle_no_flush n st r hcond]
    rw [ih ⟨st.backlog ++ [r], st.sent⟩ ?_]
    · simp
    · simp only [List.length_append, List.length_cons, List.length_nil] at h ⊢
      push_cast at h ⊢
      omega

/-- Handling a run of records that exactly reaches the threshold on its last
record flushes the whole backlog, in FIFO order, leaving the backlog empty. -/
theorem batchRun_flush_exact (n : Int) :
    ∀ (rs : List Nat) (st : BatchState),
      rs ≠ [] → (st.backlog.length : Int) + rs.length = n → 0 < n →
      batchRun n st rs = ⟨[], st.sent ++ st.backlog ++ rs⟩ := by
  intro rs
  induction rs with
  | nil =>
    intro st hne
    exact absurd rfl hne
  | cons r rest ih =>
    intro st hne hlen hpos
    by_cases hr : rest = []
    · subst hr
      have hcond : 0 < n ∧ n ≤ ((st.backlog ++ [r]).length : Int) := by
        refine ⟨hpos, ?_⟩
        simp only [List.length_append, List.length_cons, List.length_nil] at hlen ⊢
        push_cast at hlen ⊢
        omega
      show batchRun n st [r] = _
      rw [batchRun, List.foldl_cons]
      unfold batchHandle
      rw [if_pos hcond]
      simp [batchRun, List.append_assoc]
    · have hcond : ¬(0 < n ∧ n ≤ ((st.backlog ++ [r]).length : Int)) := by
        rintro ⟨-, hle⟩
        have hrl : 1 ≤ (rest.length : Int) := by
          have := List.length_pos.mpr hr
          omega
        simp only [List.length_append, List.length_cons, List.length_nil] at hle hlen
        push_cast at hle hlen
        omega
      show batchRun n st (r :: rest) = _
      rw [batchRun, List.foldl_cons, ← batchRun, batchHandle_no_flush n st r hcond]
      rw [ih ⟨st.backlog ++ [r], st.sent⟩ hr ?_ hpos]
      · simp [List.append_assoc]
      · simp only [List.length_append, List.length_cons, List.length_nil] at hlen ⊢
        push_cast at hlen ⊢
        omega

/-! Theorems for the claims. -/

/-- Claim C1, counterexample: the Fan-Out Dispatcher does re-check each
member's enabled state. A member whose threshold is Warn receives nothing for
an Info record, although unconditional forwarding (multiHandleUncond, the
claim's wording) would deliver it. -/
theorem multiHandle_skips_disabled_counterexample :
    multiHandle [Handler.base 1 LevelWarn none] LevelInfo = ([], none)
    ∧ multiHandleUncond [Handler.base 1 LevelWarn none] LevelInfo = ([1], none)
    ∧ multiHandle [Handler.base 1 LevelWarn none] LevelInfo
        ≠ multiHandleUncond [Handler.base 1 LevelWarn none] LevelInfo := by
  refine ⟨by decide, by decide, by decide⟩

/-- Claim C1, amended: MultiHandler.Handle forwards the record exactly once to
every member whose Enabled reports true for the record level, skipping the
others; all enabled members are attempted regardless of earlier failures, and
the first non-nil error among them is returned. -/
theorem multiHandle_enabled_members (hs : List Handler) (l : Level) :
    multiHandle hs l =
      combineResults ((hs.filter (fun h => h.enabled l)).map (fun h => h.handle l)) := by
  induction hs with
  | nil => rfl
  | cons h t ih =>
    by_cases hen : h.enabled l = true
    · simp [multiHandle, hen, List.filter_cons, combineResults, ih]
    · simp [multiHandle, hen, List.filter_cons, ih]

/-- Claim C3: with size threshold n at least 1, the n-th handle call flushes
synchronously: starting from an empty buffer, after n records the inner sink
has received exactly those n records in FIFO order and the backlog is empty;
the following records accumulate, unsent, as long as they stay below the
threshold. The Batching Buffer is modelled from the spec (its source is not
under src/). -/
theorem batch_flush_at_threshold (n : Int) (hn : 1 ≤ n) (rs rs2 : List Nat)
    (h1 : (rs.length : Int) = n) (h2 : (rs2.length : Int) < n) :
    batchRun n ⟨[], []⟩ rs = ⟨[], rs⟩
    ∧ batchRun n (batchRun n ⟨[], []⟩ rs) rs2 = ⟨rs2, rs⟩ := by
  have hfl : batchRun n ⟨[], []⟩ rs = ⟨[], rs⟩ := by
    have hne : rs ≠ [] := by
      intro h0
      rw [h0] at h1
      simp at h1
      omega
    have := batchRun_flush_exact n rs ⟨[], []⟩ hne (by simpa using h1) (by omega)
    simpa using this
  refine ⟨hfl, ?_⟩
  rw [hfl]
  have := batchRun_no_flush n rs2 ⟨[], rs⟩ (by simpa using h2)
  simpa using this

/-- Claim C3, witness at threshold 2. -/
theorem batch_flush_at_threshold_witness :
    batchRun 2 ⟨[], []⟩ [5, 6] = ⟨[], [5, 6]⟩
    ∧ batchRun 2 (batchRun 2 ⟨[], []⟩ [5, 6]) [7] = ⟨[7], [5, 6]⟩ :=
  batch_flush_at_threshold 2 (by decide) [5, 6] [7] (by decide) (by decide)

/-- Claim C7: SetLevel always takes effect, however the gate's leveler was
constructed (settable LevelVar or plain constant), and however many times it
is applied: after any sequence of SetLevel calls ending in L, Enabled
evaluates the record level against L. -/
theorem setLevel_always_takes_effect (g : Leveler) (inner : Option Handler)
    (ls : List Leveler) (L : Leveler) (l : Level) :
    (Handler.level (applySetLevels g (ls ++ [L])) inner).enabled l
      = decide (L.level ≤ l) := by
  unfold applySetLevels
  rw [List.foldl_append]
  simp only [List.foldl_cons, List.foldl_nil]
  unfold setLevel
  split <;> rfl

/-- Claim C8: a Level Gate with threshold L2 is disabled for any L1 below L2,
enabled for every level at or above L2, and in general enabled exactly when
the level is at least the threshold; Enabled is a pure function of the
threshold and the level. -/
theorem levelGate_enabled_iff (lv : Leveler) (inner : Option Handler) (L1 : Level)
    (h12 : L1 < lv.val) :
    (Handler.level lv inner).enabled L1 = false
    ∧ (∀ L : Level, lv.val ≤ L → (Handler.level lv inner).enabled L = true)
    ∧ (∀ L : Level, (Handler.level lv inner).enabled L = true ↔ lv.val ≤ L) := by
  refine ⟨?_, ?_, ?_⟩
  · simp only [Handler.enabled, Leveler.level]
    rw [decide_eq_false_iff_not]
    push_neg
    exact h12
  · intro L hL
    simp only [Handler.enabled, Leveler.level]
    rw [decide_eq_true_iff]
    exact hL
  · intro L
    simp only [Handler.enabled, Leveler.level]
    exact decide_eq_true_iff

/-- Claim C8, witness: threshold 4 (Warn) rejects 0 (Info) and accepts 8. -/
theorem levelGate_enabled_iff_witness :
    (Handler.level ⟨false, 4⟩ none).enabled 0 = false
    ∧ (Handler.level ⟨false, 4⟩ none).enabled 8 = true :=
  ⟨(levelGate_enabled_iff ⟨false, 4⟩ none 0 (by decide)).1,
   (levelGate_enabled_iff ⟨false, 4⟩ none 0 (by decide)).2.1 8 (by decide)⟩

/-- Claim C9, counterexample: constructing a gate over a gate whose own inner
sink is again a gate (a chain Logger.V builds by struct literal) unwraps only
one layer, so the constructed gate's inner sink is still a Level Gate. -/
theorem newLevelHandler_chain_counterexample :
    chainedGate.isLevelGate = true
    ∧ (NewLevelHandler ⟨false, LevelError⟩ chainedGate).innerIsGate = true :=
  ⟨rfl, rfl⟩

/-- Claim C9, amended: NewLevelHandler unwraps exactly one layer. Whenever the
wrapped handler's destination is not itself a gate (in particular whenever
every gate involved was built by NewLevelHandler), the constructed gate's
inner sink is not a gate; building a gate over such a built gate keeps a
single effective threshold: the outer one governs Enabled, and Handle reaches
the original destination. -/
theorem newLevelHandler_unwraps_one (lv1 lv2 : Leveler) (h : Handler)
    (hng : h.isLevelGate = false) :
    (NewLevelHandler lv1 h).innerIsGate = false
    ∧ (NewLevelHandler lv1 (NewLevelHandler lv2 h)).innerIsGate = false
    ∧ (∀ l, (NewLevelHandler lv1 (NewLevelHandler lv2 h)).enabled l = decide (lv1.level ≤ l))
    ∧ (∀ l, (NewLevelHandler lv1 (NewLevelHandler lv2 h)).handle l = h.handle l) := by
  cases h with
  | base i m e => exact ⟨rfl, rfl, fun l => rfl, fun l => rfl⟩
  | level lv inner => simp [Handler.isLevelGate] at hng

/-- Claim C9, witness. -/
theorem newLevelHandler_unwraps_one_witness :
    (NewLevelHandler ⟨false, 8⟩ (NewLevelHandler ⟨false, 0⟩ (Handler.base 3 0 none))).innerIsGate
        = false
    ∧ (NewLevelHandler ⟨false, 8⟩ (NewLevelHandler ⟨false, 0⟩ (Handler.base 3 0 none))).handle 0
        = (Handler.base 3 0 none).handle 0 :=
  ⟨(newLevelHandler_unwraps_one ⟨false, 8⟩ ⟨false, 0⟩ (Handler.base 3 0 none) rfl).2.1,
   (newLevelHandler_unwraps_one ⟨false, 8⟩ ⟨false, 0⟩ (Handler.base 3 0 none) rfl).2.2.2 0⟩

/-- Claim C10: Handle on a nil Level Gate, or on a gate whose inner handler is
nil, returns nil without delivering anything; Handle on a nil Console
Renderer returns nil; a present renderer surfaces exactly the write error of
its destination. -/
theorem nil_sink_noop (lv : Leveler) (l : Level) (r : CRecord) (wErr : Option Nat)
    (cfg : CConfig) :
    levelHandleNil none l = ([], none)
    ∧ levelHandleNil (some (lv, none)) l = ([], none)
    ∧ (consoleHandleNil none wErr r).1 = none
    ∧ (consoleHandleNil (some cfg) wErr r).1 = wErr :=
  ⟨rfl, rfl, rfl, rfl⟩

/-- Claim C5: for composite values the empty-literal detection is dead code.
jsonMarshalableEnc.Encode leaves the json.Marshal text followed by a newline
in the shared buffer, so the comparison against the four newline-free empty
literals never matches: every successfully serialized composite value is
deemed non-empty and replaced by the serialized text including the trailing
newline, contradicting the claim for values serializing to an empty literal
(for example GoVal.vother (some "[]") false "[]", an empty slice). -/
theorem normalizer_empty_literal_bug (j : String) (z : Bool) (t : String) :
    (ensurePrintableValueIsEmpty (GoVal.vother (some j) z t)).isEmpty = false
    ∧ (ensurePrintableValueIsEmpty (GoVal.vother (some j) z t)).value
        = AttrV.str (j ++ "\n")
    ∧ ensurePrintableValueIsEmpty (GoVal.vother (some "[]") false "[]")
        = ⟨false, AttrV.str "[]\n"⟩ := by
  have h1 : j ++ "\n" ≠ "\"\"" := append_newline_ne (by decide)
  have h2 : j ++ "\n" ≠ "[]" := append_newline_ne (by decide)
  have h3 : j ++ "\n" ≠ "\x7b\x7d" := append_newline_ne (by decide)
  have h4 : j ++ "\n" ≠ "null" := append_newline_ne (by decide)
  refine ⟨?_, ?_, by decide⟩
  · simp [ensurePrintableValueIsEmpty, h1, h2, h3, h4]
  · simp [ensurePrintableValueIsEmpty, h1, h2, h3, h4]

/-- Claim C6, counterexample: the replacement threshold is strictly greater
than two to the sixty-third, so that value itself, although it exceeds the
signed 64-bit maximum, stays a numeric value instead of becoming a decimal
string. -/
theorem uint64_boundary_counterexample :
    ensurePrintableValueIsEmpty (GoVal.vuint64 (2 ^ 63))
      = ⟨false, AttrV.uint (2 ^ 63)⟩
    ∧ maxInt64 < 2 ^ 63 := by
  refine ⟨by decide, by decide⟩

/-- Claim C6, amended: a uint64 value is replaced by its decimal string
exactly when it strictly exceeds two to the sixty-third; every value up to
and including that bound, in particular the whole signed range, stays
numeric; no uint64 value is ever deemed empty. -/
theorem uint64_conversion (n : Nat) :
    (ensurePrintableValueIsEmpty (GoVal.vuint64 n)).isEmpty = false
    ∧ ((ensurePrintableValueIsEmpty (GoVal.vuint64 n)).value = AttrV.str (toString n)
        ↔ 2 ^ 63 < n)
    ∧ (n ≤ maxInt64 → (ensurePrintableValueIsEmpty (GoVal.vuint64 n)).value = AttrV.uint n) := by
  simp only [ensurePrintableValueIsEmpty]
  by_cases hlt : 2 ^ 63 < n
  · rw [if_pos hlt]
    refine ⟨rfl, ⟨fun _ => hlt, fun _ => rfl⟩, ?_⟩
    · intro hle
      exfalso
      have hp : (2 : Nat) ^ 63 = 9223372036854775808 := by norm_num
      unfold maxInt64 at hle
      rw [hp] at hlt hle
      omega
  · rw [if_neg hlt]
    refine ⟨rfl, ?_, fun _ => rfl⟩
    constructor
    · intro he
      exact absurd he (by simp)
    · intro hgt
      exact absurd hgt hlt

/-- Claim C6, witness. -/
theorem uint64_conversion_witness :
    (ensurePrintableValueIsEmpty (GoVal.vuint64 42)).isEmpty = false
    ∧ (ensurePrintableValueIsEmpty (GoVal.vuint64 42)).value = AttrV.uint 42 :=
  ⟨(uint64_conversion 42).1, (uint64_conversion 42).2.2 (by decide)⟩

/-- Claim C2, counterexample: on a record with one attribute the encoder's
bytes end in the newline the JSON handler wrote, and the renderer appends
them verbatim after the separator without terminating the line itself; the
line the claim describes, with a renderer-written newline after
newline-free encoder bytes, differs from the actual assembled bytes. -/
theorem console_newline_counterexample :
    consoleAttrBuf recAttrs = "\x7b\"a\":0\x7d\n"
    ∧ endsWithNewline (consoleAttrBuf recAttrs) = true
    ∧ consoleHandle cfg0 recAttrs
        = consolePre cfg0 recAttrs ++ " attrs=" ++ consoleAttrBuf recAttrs
    ∧ consoleHandle cfg0 recAttrs
        ≠ consolePre cfg0 recAttrs ++ " attrs=" ++ consoleAttrBuf recAttrs ++ "\n" := by
  refine ⟨by decide, by decide, by decide, by decide⟩

/-- Claim C2, amended: when attribute bytes survive, the line is the
positional fields followed by the separator and the encoder's bytes, which
themselves end in the terminating newline (the renderer adds none); when no
attribute bytes survive, the renderer terminates the line directly and
appends no separator. -/
theorem console_line_format (cfg : CConfig) (r rE : CRecord)
    (hne : consoleAttrBuf r ≠ "") (hE : consoleAttrBuf rE = "") :
    consoleHandle cfg r = consolePre cfg r ++ " attrs=" ++ consoleAttrBuf r
    ∧ endsWithNewline (consoleAttrBuf r) = true
    ∧ consoleHandle cfg rE = consolePre cfg rE ++ "\n" := by
  refine ⟨?_, ?_, ?_⟩
  · unfold consoleHandle
    rw [if_pos (length_ne_zero_of_ne_empty hne)]
  · rcases consoleAttrBuf_newline r with h | h
    · exact absurd h hne
    · exact h
  · unfold consoleHandle
    rw [hE]
    rfl

/-- Claim C2, witness. -/
theorem console_line_format_witness :
    consoleHandle cfg0 recAttrs
        = consolePre cfg0 recAttrs ++ " attrs=" ++ consoleAttrBuf recAttrs
    ∧ consoleHandle cfg0 recNoAttrs = consolePre cfg0 recNoAttrs ++ "\n" :=
  ⟨(console_line_format cfg0 recAttrs recNoAttrs (by decide) (by decide)).1,
   (console_line_format cfg0 recAttrs recNoAttrs (by decide) (by decide)).2.2⟩

/-- Claim C4, counterexample: with the integer attribute first and the
empty-string attribute second, the attrs segment still contains the
empty-string attribute: only leading placeholder pairs are stripped, so the
claimed omission fails for this ordering. -/
theorem console_empty_attr_counterexample :
    consoleAttrBuf recEmptyLast = "\x7b\"a\":0,\"\":\"\"\x7d\n"
    ∧ consoleAttrBuf recEmptyLast ≠ "\x7b\"a\":0\x7d\n" :=
  ⟨by decide, by decide⟩

/-- Claim C4, amended: when the empty-string attribute precedes the integer
attribute, the rendered attrs segment contains only the integer attribute
under its key; and in general an attribute whose KindAny value the Normalizer
deems empty is substituted away before the inner encoder runs, so the encoder
output is as if the attribute were absent. -/
theorem console_empty_attr_suppression (pre post : List (String × AttrV)) (k : String)
    (g : GoVal) (hempty : (ensurePrintableValueIsEmpty g).isEmpty = true) :
    consoleAttrBuf recEmptyFirst = "\x7b\"a\":0\x7d\n"
    ∧ attrEncBytes (pre ++ (k, AttrV.any g) :: post) = attrEncBytes (pre ++ post) := by
  refine ⟨by decide, ?_⟩
  have hnone : replaceAttrConsole k (AttrV.any g) = none := by
    by_cases hk : k ∈ reservedKeys
    · simp [replaceAttrConsole, hk]
    · simp [replaceAttrConsole, hk, hempty]
  simp [attrEncBytes, List.filterMap_append, List.filterMap_cons, hnone]

/-- Claim C4, witness. -/
theorem console_empty_attr_suppression_witness :
    consoleAttrBuf recEmptyFirst = "\x7b\"a\":0\x7d\n"
    ∧ attrEncBytes [("a", AttrV.int 0), ("e", AttrV.any GoVal.vnil)]
        = attrEncBytes [("a", AttrV.int 0)] :=
  ⟨(console_empty_attr_suppression [] [] "e" GoVal.vnil rfl).1,
   by
     have h := (console_empty_attr_suppression [("a", AttrV.int 0)] [] "e" GoVal.vnil rfl).2
     simpa using h⟩

end Zlog
